import Mathlib

/-!
Shallow embedding of the attribute-utility core of this repository:

* `sdk/include/opentelemetry/sdk/common/attribute_utils.h`
  (the owned attribute value model, the two converters, and the three
  map variants `StringAttributeMap`, `AttributeMap`, `OrderedAttributeMap`),
* `sdk/include/opentelemetry/sdk/common/attributemap_hash.h`
  (the FNV-1a byte hash, the seed-mixing `GetHash` step, and the two
  `GetHashForAttributeMap` entry points).

Machine integers (`size_t` / `uint64_t`) are embedded as `Nat` with
explicit reduction modulo `2 ^ 64` wherever the C++ arithmetic wraps.
A byte (`unsigned char`) is a `Nat` reduced modulo `256` where the code
casts.  Strings are Lean `String`s; the byte sequence of a string is
modelled by the code-point list `String.data`, which coincides with the
byte sequence for the ASCII text these components produce and compare.
A C++ map is embedded as its entry sequence (the list of key/value pairs
in iteration order): `std::unordered_map` assignment is modelled by
in-place replacement of the entry (appending new keys), `std::map`
assignment by ordered insert-or-assign, which keeps the entry sequence
strictly sorted by key.

A `double` has no exact embedding; the code only ever observes a double
through its two text renderings (stream insertion `oss << d` used by the
hash path, and `std::to_string(d)` used by the stringifying converter),
so a double is modelled by that pair of rendering strings.
-/

namespace OtelSdk

/-- `2 ^ 64`, the modulus of the C++ `size_t` / `uint64_t` arithmetic. -/
def U64 : Nat := 2 ^ 64

/-- A C++ `double`, modelled by the only observations this code makes of
it: `stream` is the text produced by `oss << d` (the hash path of
`Fnv1aHash<T>`), `fixed` is the text produced by `std::to_string(d)`
(the stringifying converter). -/
structure DoubleRepr where
  stream : String
  fixed : String
deriving DecidableEq

/-- The borrowed value union `opentelemetry::common::AttributeValue`,
with exactly the alternatives the converters in
`attribute_utils.h` match on: scalars, the three text-like forms, and
the read-only span forms.  `int32_t`/`int64_t` are embedded as `Int`,
`uint32_t`/`uint64_t` as `Nat`, `uint8_t` span elements as `Nat`
(reduced mod 256 at use sites). -/
inductive AttributeValue where
  | boolV : Bool → AttributeValue
  | intV : Int → AttributeValue
  | uintV : Nat → AttributeValue
  | int64V : Int → AttributeValue
  | uint64V : Nat → AttributeValue
  | doubleV : DoubleRepr → AttributeValue
  | stringViewV : String → AttributeValue
  | stringV : String → AttributeValue
  | charPtrV : String → AttributeValue
  | spanByteV : List Nat → AttributeValue
  | spanBoolV : List Bool → AttributeValue
  | spanIntV : List Int → AttributeValue
  | spanUIntV : List Nat → AttributeValue
  | spanInt64V : List Int → AttributeValue
  | spanUInt64V : List Nat → AttributeValue
  | spanDoubleV : List DoubleRepr → AttributeValue
  | spanStringViewV : List String → AttributeValue
deriving DecidableEq

/-- The owned value union `OwnedAttributeValue` of `attribute_utils.h`:
every non-owning alternative replaced by an owned copy (text-like forms
collapse to `std::string`, spans to `std::vector`). -/
inductive OwnedAttributeValue where
  | boolV : Bool → OwnedAttributeValue
  | intV : Int → OwnedAttributeValue
  | uintV : Nat → OwnedAttributeValue
  | int64V : Int → OwnedAttributeValue
  | uint64V : Nat → OwnedAttributeValue
  | doubleV : DoubleRepr → OwnedAttributeValue
  | stringV : String → OwnedAttributeValue
  | spanByteV : List Nat → OwnedAttributeValue
  | spanBoolV : List Bool → OwnedAttributeValue
  | spanIntV : List Int → OwnedAttributeValue
  | spanUIntV : List Nat → OwnedAttributeValue
  | spanInt64V : List Int → OwnedAttributeValue
  | spanUInt64V : List Nat → OwnedAttributeValue
  | spanDoubleV : List DoubleRepr → OwnedAttributeValue
  | spanStringV : List String → OwnedAttributeValue
deriving DecidableEq

/-- `AttributeConverter` of `attribute_utils.h`: the visitor producing
an owned copy of the same logical kind.  Scalars are copied, text-like
inputs become owned strings, `convertSpan` copies a span into a vector
element by element. -/
def AttributeConverter : AttributeValue → OwnedAttributeValue
  | .boolV b => .boolV b
  | .intV i => .intV i
  | .uintV u => .uintV u
  | .int64V i => .int64V i
  | .uint64V u => .uint64V u
  | .doubleV d => .doubleV d
  | .stringViewV s => .stringV s
  | .stringV s => .stringV s
  | .charPtrV s => .stringV s
  | .spanByteV l => .spanByteV l
  | .spanBoolV l => .spanBoolV l
  | .spanIntV l => .spanIntV l
  | .spanUIntV l => .spanUIntV l
  | .spanInt64V l => .spanInt64V l
  | .spanUInt64V l => .spanUInt64V l
  | .spanDoubleV l => .spanDoubleV l
  | .spanStringViewV l => .spanStringV l

/-- `StringAttributeConverter::convertSpan`: streams each element's
rendering followed by a single space into an output string
(`oss << operator()(val) << " "`). -/
def convertSpan {α : Type} (render : α → String) (vals : List α) : String :=
  vals.foldl (fun acc v => acc ++ render v ++ " ") ""

/-- `StringAttributeConverter` of `attribute_utils.h`: the visitor
rendering any borrowed value to text.  Booleans render `"true"`/`"false"`,
numbers via `std::to_string`, text-like inputs are copied, spans go
through `convertSpan`.  A `uint8_t` span element undergoes integral
promotion to `int` and is therefore rendered by the `int32_t` arm. -/
def StringAttributeConverter : AttributeValue → String
  | .boolV b => if b then "true" else "false"
  | .intV i => toString i
  | .uintV u => toString u
  | .int64V i => toString i
  | .uint64V u => toString u
  | .doubleV d => d.fixed
  | .stringViewV s => s
  | .stringV s => s
  | .charPtrV s => s
  | .spanByteV l => convertSpan (fun b => toString ((b % 256 : Nat) : Int)) l
  | .spanBoolV l => convertSpan (fun b => if b then "true" else "false") l
  | .spanIntV l => convertSpan (fun i => toString i) l
  | .spanUIntV l => convertSpan (fun u => toString u) l
  | .spanInt64V l => convertSpan (fun i => toString i) l
  | .spanUInt64V l => convertSpan (fun u => toString u) l
  | .spanDoubleV l => convertSpan DoubleRepr.fixed l
  | .spanStringViewV l => convertSpan (fun s => s) l

/-- The byte sequence of a string, modelled by its code points (equal to
the byte sequence for ASCII text). -/
def strBytes (s : String) : List Nat := s.data.map Char.toNat

/-- Lexicographic strict comparison of byte sequences, as performed by
`std::string::operator<`. -/
def strLtb : List Nat → List Nat → Bool
  | [], [] => false
  | [], _ :: _ => true
  | _ :: _, [] => false
  | a :: as, b :: bs =>
      if a < b then true else if b < a then false else strLtb as bs

/-- `std::string` key comparison `k1 < k2` (lexicographic over the
bytes), the ordering of `std::map` iteration. -/
def strLt (s1 s2 : String) : Bool := strLtb (strBytes s1) (strBytes s2)

/-- `Fnv1aHash(const char *, size_t)` of `attributemap_hash.h`: 64-bit
FNV-1a.  Starting from the offset basis, each byte (the code's
`static_cast<unsigned char>`, i.e. reduction mod 256) is XOR-ed into the
accumulator, which is then multiplied by the FNV prime with `uint64_t`
wraparound. -/
def Fnv1aHash (data : List Nat) : Nat :=
  data.foldl (fun hash b => ((hash ^^^ (b % 256)) * 1099511628211) % U64)
    14695981039346656037

/-- `Fnv1aHash(const std::string &)`: FNV-1a over the string's bytes. -/
def Fnv1aHashString (s : String) : Nat := Fnv1aHash (strBytes s)

/-- One `GetHash(seed, arg)` step of `attributemap_hash.h`, with `h` the
FNV-1a hash of the argument:
`seed ^= h + 0x9e3779b9 + (seed << 6) + (seed >> 2)` in `size_t`
arithmetic — the shift left wraps mod `2 ^ 64`, the additions wrap mod
`2 ^ 64`, the shift right is division by 4. -/
def GetHashStep (seed h : Nat) : Nat :=
  seed ^^^ ((h + 0x9e3779b9 + (seed * 2 ^ 6) % U64 + seed / 2 ^ 2) % U64)

/-- The `oss << v` rendering of a `bool`: `std::ostream` defaults to
`noboolalpha`, so `true` prints `"1"` and `false` prints `"0"`. -/
def streamBool (b : Bool) : String := if b then "1" else "0"

/-- `GetHashForAttributeValueVisitor` of `attributemap_hash.h`, applied
to one owned value: each scalar alternative is hashed by
`Fnv1aHash<T>`, i.e. FNV-1a over its `oss << v` stream rendering
(`"1"`/`"0"` for booleans, decimal for integers, the stream rendering
for doubles); a `std::string` is hashed over its bytes directly; a
vector folds one `GetHash` step per element in order.  A `uint8_t`
vector element streams as a single raw character, i.e. the one-byte
sequence of its value. -/
def GetHashForAttributeValueVisitor (seed : Nat) : OwnedAttributeValue → Nat
  | .boolV b => GetHashStep seed (Fnv1aHashString (streamBool b))
  | .intV i => GetHashStep seed (Fnv1aHashString (toString i))
  | .uintV u => GetHashStep seed (Fnv1aHashString (toString u))
  | .int64V i => GetHashStep seed (Fnv1aHashString (toString i))
  | .uint64V u => GetHashStep seed (Fnv1aHashString (toString u))
  | .doubleV d => GetHashStep seed (Fnv1aHashString d.stream)
  | .stringV s => GetHashStep seed (Fnv1aHashString s)
  | .spanByteV l =>
      l.foldl (fun sd b => GetHashStep sd (Fnv1aHash [b % 256])) seed
  | .spanBoolV l =>
      l.foldl (fun sd b => GetHashStep sd (Fnv1aHashString (streamBool b))) seed
  | .spanIntV l =>
      l.foldl (fun sd i => GetHashStep sd (Fnv1aHashString (toString i))) seed
  | .spanUIntV l =>
      l.foldl (fun sd u => GetHashStep sd (Fnv1aHashString (toString u))) seed
  | .spanInt64V l =>
      l.foldl (fun sd i => GetHashStep sd (Fnv1aHashString (toString i))) seed
  | .spanUInt64V l =>
      l.foldl (fun sd u => GetHashStep sd (Fnv1aHashString (toString u))) seed
  | .spanDoubleV l =>
      l.foldl (fun sd d => GetHashStep sd (Fnv1aHashString d.stream)) seed
  | .spanStringV l =>
      l.foldl (fun sd s => GetHashStep sd (Fnv1aHashString s)) seed

/-- One entry of the map-level hash loop: fold the key's hash, then the
value's hashes via the visitor. -/
def hashEntry (seed : Nat) (kv : String × OwnedAttributeValue) : Nat :=
  GetHashForAttributeValueVisitor (GetHashStep seed (Fnv1aHashString kv.1)) kv.2

/-- `GetHashForAttributeMap(attribute_map)` of `attributemap_hash.h`,
on a map given by its entry sequence: seed starts at zero; for each
entry the key's hash is folded, then the value's hashes via
`GetHashForAttributeValueVisitor`. -/
def GetHashForAttributeMap (entries : List (String × OwnedAttributeValue)) : Nat :=
  entries.foldl hashEntry 0

/-- `GetHashForAttributeMap(attributes, is_key_present_callback)` of
`attributemap_hash.h`: enumerate the source pairs in order; a pair whose
key the predicate rejects is skipped; otherwise fold the key's hash,
convert the value with `AttributeConverter`, and fold its hashes via the
visitor. -/
def GetHashForAttributeMapFiltered (src : List (String × AttributeValue))
    (is_key_present_callback : String → Bool) : Nat :=
  src.foldl
    (fun seed kv =>
      if is_key_present_callback kv.1 then
        hashEntry seed (kv.1, AttributeConverter kv.2)
      else seed)
    0

/-- `std::unordered_map` assignment `m[key] = value`, on the entry
sequence: replace the value of the existing entry for `key` in place,
or append a new entry when `key` is absent. -/
def setEntry {V : Type} : List (String × V) → String → V → List (String × V)
  | [], k, v => [(k, v)]
  | (k', v') :: rest, k, v =>
      if k = k' then (k, v) :: rest else (k', v') :: setEntry rest k v

/-- Value lookup by key on an entry sequence (first matching entry). -/
def lookupEntry {V : Type} : List (String × V) → String → Option V
  | [], _ => none
  | (k', v') :: rest, k => if k = k' then some v' else lookupEntry rest k

/-- `std::map` assignment `m[key] = value`, on the entry sequence
sorted strictly by key: insert the entry at its key-ordered position,
replacing the value in place when the key is already present. -/
def mapInsert {V : Type} : List (String × V) → String → V → List (String × V)
  | [], k, v => [(k, v)]
  | (k', v') :: rest, k, v =>
      if strLt k k' then (k, v) :: (k', v') :: rest
      else if k = k' then (k, v) :: rest
      else (k', v') :: mapInsert rest k v

namespace StringAttributeMap

/-- `StringAttributeMap::SetAttribute`: convert the value with
`StringAttributeConverter` and assign it under an owned copy of the
key. -/
def SetAttribute (m : List (String × String)) (key : String)
    (value : AttributeValue) : List (String × String) :=
  setEntry m key (StringAttributeConverter value)

/-- The `StringAttributeMap(const KeyValueIterable &)` constructor:
start empty and call `SetAttribute` once per source pair in source
order. -/
def fromSource (src : List (String × AttributeValue)) : List (String × String) :=
  src.foldl (fun m kv => SetAttribute m kv.1 kv.2) []

/-- The `StringAttributeMap(const KeyValueIterable *)` constructor: a
null source yields the empty map, otherwise populate as from a
reference. -/
def fromOptionalSource : Option (List (String × AttributeValue)) →
    List (String × String)
  | none => []
  | some src => fromSource src

end StringAttributeMap

namespace AttributeMap

/-- `AttributeMap::SetAttribute`: convert the value with
`AttributeConverter` and assign it under an owned copy of the key. -/
def SetAttribute (m : List (String × OwnedAttributeValue)) (key : String)
    (value : AttributeValue) : List (String × OwnedAttributeValue) :=
  setEntry m key (AttributeConverter value)

/-- The `AttributeMap(const KeyValueIterable &)` constructor. -/
def fromSource (src : List (String × AttributeValue)) :
    List (String × OwnedAttributeValue) :=
  src.foldl (fun m kv => SetAttribute m kv.1 kv.2) []

/-- The `AttributeMap(const KeyValueIterable *)` constructor: a null
source yields the empty map. -/
def fromOptionalSource : Option (List (String × AttributeValue)) →
    List (String × OwnedAttributeValue)
  | none => []
  | some src => fromSource src

end AttributeMap

namespace OrderedAttributeMap

/-- `OrderedAttributeMap::SetAttribute`: convert the value with
`AttributeConverter` and assign it under the key at its sorted
position.  (`OrderedAttributeMap` declares no constructor from a
nullable source pointer; its constructors take a source reference or an
initializer list.) -/
def SetAttribute (m : List (String × OwnedAttributeValue)) (key : String)
    (value : AttributeValue) : List (String × OwnedAttributeValue) :=
  mapInsert m key (AttributeConverter value)

/-- The `OrderedAttributeMap(const KeyValueIterable &)` constructor:
start empty and call `SetAttribute` once per source pair in source
order. -/
def fromSource (src : List (String × AttributeValue)) :
    List (String × OwnedAttributeValue) :=
  src.foldl (fun m kv => SetAttribute m kv.1 kv.2) []

end OrderedAttributeMap

/-! ### Spec-side definitions for the refinement claims -/

/-- The spec's wording of the primitive byte hash (§4.4): initialize an
accumulator to the offset basis and, for each byte in order, XOR the
byte into the accumulator then multiply by the prime, all modulo
`2 ^ 64`. -/
def fnvSpecLoop : Nat → List Nat → Nat
  | acc, [] => acc
  | acc, b :: rest => fnvSpecLoop (((acc ^^^ b) * 1099511628211) % 2 ^ 64) rest

/-- The spec's wording of the filtered-source hash contract: a map
containing exactly the accepted pairs, in the same relative order, each
value converted to owned form. -/
def specAcceptedPairsMap (src : List (String × AttributeValue))
    (P : String → Bool) : List (String × OwnedAttributeValue) :=
  (src.filter fun kv => P kv.1).map fun kv => (kv.1, AttributeConverter kv.2)

/-- The elements of a sequence-valued borrowed value, each as the scalar
borrowed value that the C++ overload resolution renders it as: a span of
kind `K` yields its elements as scalars of kind `K`, except that a
`uint8_t` element undergoes integral promotion and reaches the
`int32_t` arm with its (mod-256) value. -/
def spanElements : AttributeValue → Option (List AttributeValue)
  | .spanByteV l => some (l.map fun b => .intV ((b % 256 : Nat) : Int))
  | .spanBoolV l => some (l.map .boolV)
  | .spanIntV l => some (l.map .intV)
  | .spanUIntV l => some (l.map .uintV)
  | .spanInt64V l => some (l.map .int64V)
  | .spanUInt64V l => some (l.map .uint64V)
  | .spanDoubleV l => some (l.map .doubleV)
  | .spanStringViewV l => some (l.map .stringViewV)
  | _ => none

/-- The spec's wording of the sequence rendering (§4.2): the
concatenation, in element order, of each element's rendering followed by
a single space. -/
def specSpanRendering : List String → String
  | [] => ""
  | r :: rest => r ++ " " ++ specSpanRendering rest

/-- The seed-mixing fold over a sequence of per-argument hashes, with
the seed initialized to zero as in both `GetHashForAttributeMap` entry
points. -/
def foldHashes (hs : List Nat) : Nat := hs.foldl GetHashStep 0

/-- The `oss << v` stream rendering a scalar owned value is hashed
through by `Fnv1aHash<T>` (text is streamed as its own characters). -/
def streamRender : OwnedAttributeValue → String
  | .boolV b => streamBool b
  | .intV i => toString i
  | .uintV u => toString u
  | .int64V i => toString i
  | .uint64V u => toString u
  | .doubleV d => d.stream
  | .stringV s => s
  | _ => ""

/-- Whether an owned value is a non-text scalar (boolean, one of the
four integer kinds, or double). -/
def isNonTextScalar : OwnedAttributeValue → Bool
  | .boolV _ => true
  | .intV _ => true
  | .uintV _ => true
  | .int64V _ => true
  | .uint64V _ => true
  | .doubleV _ => true
  | _ => false

/-! ### Helper lemmas -/

theorem fnv_foldl_eq_specLoop (l : List Nat) (acc : Nat)
    (hb : ∀ b ∈ l, b < 256) :
    l.foldl (fun hash b => ((hash ^^^ (b % 256)) * 1099511628211) % U64) acc
      = fnvSpecLoop acc l := by
  induction l generalizing acc with
  | nil => rfl
  | cons b rest ih =>
    simp only [List.foldl, fnvSpecLoop, U64]
    rw [Nat.mod_eq_of_lt (hb b (List.mem_cons_self b rest))]
    exact ih _ fun x hx => hb x (List.mem_cons_of_mem b hx)

/-! ### Claims -/

/-- C3: for every byte sequence, the primitive byte hash `Fnv1aHash`
equals the accumulator loop the spec describes: start at
14695981039346656037 and, per byte in order, XOR the byte in then
multiply by 1099511628211, all modulo `2 ^ 64`. -/
theorem fnv1aHash_eq_spec_loop (l : List Nat) (hb : ∀ b ∈ l, b < 256) :
    Fnv1aHash l = fnvSpecLoop 14695981039346656037 l :=
  fnv_foldl_eq_specLoop l _ hb

/-- Witness for C3 at the concrete byte sequence `[104, 105, 255]`. -/
theorem fnv1aHash_eq_spec_loop_witness :
    Fnv1aHash [104, 105, 255] = fnvSpecLoop 14695981039346656037 [104, 105, 255] :=
  fnv1aHash_eq_spec_loop [104, 105, 255] (by decide)

/-- C4: one `GetHash` step on seed `seed` and argument hash `h` produces
exactly `seed XOR (h + 0x9e3779b9 + (seed <<< 6) + (seed >>> 2))` with
unsigned 64-bit wraparound, the result again fits in 64 bits, and the
map-level fold starts from seed zero. -/
theorem getHashStep_spec (seed h : Nat) (hs : seed < U64) :
    GetHashStep seed h
        = seed ^^^ ((h + 0x9e3779b9 + (seed <<< 6) + (seed >>> 2)) % U64)
      ∧ GetHashStep seed h < U64
      ∧ GetHashForAttributeMap [] = 0 := by
  refine ⟨?_, ?_, rfl⟩
  · unfold GetHashStep
    rw [Nat.shiftLeft_eq, Nat.shiftRight_eq_div_pow]
    congr 1
    simp only [U64]
    omega
  · exact Nat.xor_lt_two_pow hs (Nat.mod_lt _ (by simp [U64]))

/-- Witness for C4 at seed 5 and argument hash 7. -/
theorem getHashStep_spec_witness :
    GetHashStep 5 7
        = 5 ^^^ ((7 + 0x9e3779b9 + (5 <<< 6) + (5 >>> 2)) % U64)
      ∧ GetHashStep 5 7 < U64
      ∧ GetHashForAttributeMap [] = 0 :=
  getHashStep_spec 5 7 (by decide)

theorem filtered_foldl_eq_spec_map (P : String → Bool)
    (src : List (String × AttributeValue)) (seed : Nat) :
    src.foldl
        (fun s kv =>
          if P kv.1 then hashEntry s (kv.1, AttributeConverter kv.2) else s)
        seed
      = (specAcceptedPairsMap src P).foldl hashEntry seed := by
  induction src generalizing seed with
  | nil => rfl
  | cons kv rest ih =>
    by_cases h : P kv.1
    · simp only [List.foldl_cons, specAcceptedPairsMap, List.filter_cons, h,
        if_true, List.map_cons]
      exact ih _
    · simp only [List.foldl_cons, specAcceptedPairsMap, List.filter_cons,
        Bool.not_eq_true] at *
      simp only [h, Bool.false_eq_true, if_false]
      exact ih _

/-- C1: the filtered-source hash entry point returns the same
fingerprint as first building a map containing exactly the accepted
pairs in the same relative order (values converted to owned form) and
then applying the map-level hash to that map. -/
theorem getHashFiltered_eq_hash_spec_map (src : List (String × AttributeValue))
    (P : String → Bool) :
    GetHashForAttributeMapFiltered src P
      = GetHashForAttributeMap (specAcceptedPairsMap src P) :=
  filtered_foldl_eq_spec_map P src 0

/-- C9: when an accepted key occurs twice in the source, the
filtered-source hash folds the key and value hashes once per occurrence
in source order — no deduplication, no last-write-wins: appending the
two occurrences to any source extends the fold by both entries. -/
theorem getHashFiltered_duplicate_key_both_occurrences
    (l : List (String × AttributeValue)) (k : String) (v1 v2 : AttributeValue)
    (P : String → Bool) (hk : P k = true) :
    GetHashForAttributeMapFiltered (l ++ [(k, v1), (k, v2)]) P
      = hashEntry
          (hashEntry (GetHashForAttributeMapFiltered l P)
            (k, AttributeConverter v1))
          (k, AttributeConverter v2) := by
  unfold GetHashForAttributeMapFiltered
  rw [List.foldl_append]
  simp [hk]

/-- Witness for C9: the key `"a"` occurs twice with different values;
both occurrences contribute to the fold. -/
theorem getHashFiltered_duplicate_key_witness :
    GetHashForAttributeMapFiltered
        [("a", .boolV true), ("a", .intV 3)] (fun _ => true)
      = hashEntry
          (hashEntry (GetHashForAttributeMapFiltered [] (fun _ => true))
            ("a", AttributeConverter (.boolV true)))
          ("a", AttributeConverter (.intV 3)) := by
  have h := getHashFiltered_duplicate_key_both_occurrences []
    "a" (.boolV true) (.intV 3) (fun _ => true) rfl
  simpa using h

/-- C10: every non-text scalar reaching the hash path folds the FNV-1a
hash of its default stream text rendering; in particular booleans stream
as `"1"`/`"0"`, so boolean `true`, `int32_t` 1 and `uint32_t` 1 all fold
the identical byte hash. -/
theorem scalar_hash_eq_fnv_stream_rendering (v : OwnedAttributeValue)
    (seed : Nat) (hv : isNonTextScalar v = true) :
    GetHashForAttributeValueVisitor seed v
        = GetHashStep seed (Fnv1aHashString (streamRender v))
      ∧ GetHashForAttributeValueVisitor seed (.boolV true)
          = GetHashForAttributeValueVisitor seed (.intV 1)
      ∧ GetHashForAttributeValueVisitor seed (.intV 1)
          = GetHashForAttributeValueVisitor seed (.uintV 1) := by
  refine ⟨?_, ?_, ?_⟩
  · cases v <;> first | rfl | exact Bool.noConfusion hv
  · show GetHashStep seed (Fnv1aHashString (streamBool true))
        = GetHashStep seed (Fnv1aHashString (toString (1 : Int)))
    rw [show streamBool true = toString (1 : Int) from by decide]
  · show GetHashStep seed (Fnv1aHashString (toString (1 : Int)))
        = GetHashStep seed (Fnv1aHashString (toString (1 : Nat)))
    rw [show toString (1 : Int) = toString (1 : Nat) from by decide]

/-- C5 counterexample: `[18446744071055115847, 18374966856760526152]`
and its reversal are reorderings of one another and differ as
sequences, yet the seed-mixing fold sends both to the same final seed,
so the fold is not order-sensitive for every collection and
reordering. -/
theorem foldHashes_reorder_collision :
    ([18446744071055115847, 18374966856760526152] : List Nat).Perm
        [18374966856760526152, 18446744071055115847]
      ∧ ([18446744071055115847, 18374966856760526152] : List Nat)
          ≠ [18374966856760526152, 18446744071055115847]
      ∧ foldHashes [18446744071055115847, 18374966856760526152]
          = foldHashes [18374966856760526152, 18446744071055115847] :=
  ⟨List.Perm.swap 18374966856760526152 18446744071055115847 [],
    by decide, by decide⟩

/-- C5 amended: the seed-mixing fold is order-sensitive in the sense
that reordering a collection of per-entry hashes can change the final
seed: for the hash collection `[0, 1]` the two orders fold to different
seeds. -/
theorem foldHashes_order_sensitive_example :
    ([0, 1] : List Nat).Perm [1, 0] ∧ foldHashes [0, 1] ≠ foldHashes [1, 0] :=
  ⟨List.Perm.swap 1 0 [], by decide⟩

theorem convertSpan_eq_specSpanRendering {α : Type} (f : α → String)
    (l : List α) : convertSpan f l = specSpanRendering (l.map f) := by
  suffices h : ∀ acc, l.foldl (fun acc v => acc ++ f v ++ " ") acc
      = acc ++ specSpanRendering (l.map f) by
    simpa [convertSpan] using h ""
  induction l with
  | nil => intro acc; simp [specSpanRendering]
  | cons x xs ih =>
      intro acc
      simp only [List.map_cons, specSpanRendering, List.foldl_cons]
      rw [ih]
      simp [String.append_assoc]

/-- C6: every sequence-valued input renders as the concatenation, in
element order, of each element's rendering by the same converter
followed by a single space (trailing space included). -/
theorem stringConverter_span_rendering (v : AttributeValue)
    (es : List AttributeValue) (h : spanElements v = some es) :
    StringAttributeConverter v
      = specSpanRendering (es.map StringAttributeConverter) := by
  cases v <;> first
    | exact Option.noConfusion h
    | · injection h with h
        subst h
        simp only [StringAttributeConverter, List.map_map]
        exact convertSpan_eq_specSpanRendering _ _

/-- Witness for C6: the integer sequence `[1, 2]` renders as `"1 2 "`,
with the trailing space. -/
theorem stringConverter_span_rendering_witness :
    StringAttributeConverter (.spanIntV [1, 2]) = "1 2 " := by
  have h := stringConverter_span_rendering (.spanIntV [1, 2])
    [.intV 1, .intV 2] rfl
  rw [h]; decide

/-- Witness for C10 at the scalar `int32_t 5` and seed 9. -/
theorem scalar_hash_eq_fnv_stream_rendering_witness :
    GetHashForAttributeValueVisitor 9 (.intV 5)
        = GetHashStep 9 (Fnv1aHashString (streamRender (.intV 5)))
      ∧ GetHashForAttributeValueVisitor 9 (.boolV true)
          = GetHashForAttributeValueVisitor 9 (.intV 1)
      ∧ GetHashForAttributeValueVisitor 9 (.intV 1)
          = GetHashForAttributeValueVisitor 9 (.uintV 1) :=
  scalar_hash_eq_fnv_stream_rendering (.intV 5) 9 rfl

theorem strLtb_irrefl : ∀ a : List Nat, strLtb a a = false
  | [] => rfl
  | _ :: as => by simp [strLtb, strLtb_irrefl as]

theorem strLtb_asymm : ∀ a b : List Nat, strLtb a b = true → strLtb b a = false
  | [], [] => fun h => Bool.noConfusion h
  | [], _ :: _ => fun _ => rfl
  | _ :: _, [] => fun h => Bool.noConfusion h
  | a :: as, b :: bs => by
      intro h
      rcases Nat.lt_trichotomy a b with hab | hab | hab
      · simp [strLtb, hab, Nat.lt_asymm hab]
      · subst hab
        simp only [strLtb, lt_irrefl, if_false] at h ⊢
        exact strLtb_asymm as bs h
      · simp [strLtb, hab, Nat.lt_asymm hab] at h

theorem strLtb_trans :
    ∀ a b c : List Nat, strLtb a b = true → strLtb b c = true →
      strLtb a c = true
  | [], [], _ => fun h _ => Bool.noConfusion h
  | [], _ :: _, [] => fun _ h => Bool.noConfusion h
  | [], _ :: _, _ :: _ => fun _ _ => rfl
  | _ :: _, [], _ => fun h _ => Bool.noConfusion h
  | _ :: _, _ :: _, [] => fun _ h => Bool.noConfusion h
  | a :: as, b :: bs, c :: cs => by
      intro hab hbc
      rcases Nat.lt_trichotomy a b with h1 | h1 | h1
      · rcases Nat.lt_trichotomy b c with h2 | h2 | h2
        · simp [strLtb, Nat.lt_trans h1 h2]
        · subst h2
          simp [strLtb, h1]
        · simp [strLtb, h2, Nat.lt_asymm h2] at hbc
      · subst h1
        simp only [strLtb, lt_irrefl, if_false] at hab
        rcases Nat.lt_trichotomy a c with h2 | h2 | h2
        · simp [strLtb, h2]
        · subst h2
          simp only [strLtb, lt_irrefl, if_false] at hbc ⊢
          exact strLtb_trans as bs cs hab hbc
        · simp [strLtb, h2, Nat.lt_asymm h2] at hbc
      · simp [strLtb, h1, Nat.lt_asymm h1] at hab

theorem strLtb_eq_of_not :
    ∀ a b : List Nat, strLtb a b = false → strLtb b a = false → a = b
  | [], [] => fun _ _ => rfl
  | [], _ :: _ => fun h _ => Bool.noConfusion h
  | _ :: _, [] => fun _ h => Bool.noConfusion h
  | a :: as, b :: bs => by
      intro hab hba
      rcases Nat.lt_trichotomy a b with h1 | h1 | h1
      · simp [strLtb, h1] at hab
      · subst h1
        simp only [strLtb, lt_irrefl, if_false] at hab hba
        rw [strLtb_eq_of_not as bs hab hba]
      · simp [strLtb, h1] at hba

theorem strBytes_inj {s1 s2 : String} (h : strBytes s1 = strBytes s2) :
    s1 = s2 :=
  String.ext
    (List.map_injective_iff.mpr (fun _ _ hab => Char.ext (UInt32.ext hab)) h)

theorem strLt_irrefl (s : String) : strLt s s = false := strLtb_irrefl _

theorem strLt_asymm {s1 s2 : String} (h : strLt s1 s2 = true) :
    strLt s2 s1 = false := strLtb_asymm _ _ h

theorem strLt_trans {s1 s2 s3 : String} (h1 : strLt s1 s2 = true)
    (h2 : strLt s2 s3 = true) : strLt s1 s3 = true := strLtb_trans _ _ _ h1 h2

theorem strLt_trichotomy (k1 k2 : String) :
    (strLt k1 k2 = true ∧ strLt k2 k1 = false ∧ k1 ≠ k2)
    ∨ (strLt k1 k2 = false ∧ strLt k2 k1 = false ∧ k1 = k2)
    ∨ (strLt k1 k2 = false ∧ strLt k2 k1 = true ∧ k1 ≠ k2) := by
  cases h1 : strLt k1 k2 <;> cases h2 : strLt k2 k1
  · exact Or.inr (Or.inl ⟨rfl, rfl, strBytes_inj (strLtb_eq_of_not _ _ h1 h2)⟩)
  · refine Or.inr (Or.inr ⟨rfl, rfl, ?_⟩)
    intro he
    subst he
    rw [strLt_irrefl] at h2
    exact Bool.noConfusion h2
  · refine Or.inl ⟨rfl, rfl, ?_⟩
    intro he
    subst he
    rw [strLt_irrefl] at h1
    exact Bool.noConfusion h1
  · rw [strLt_asymm h1] at h2
    exact Bool.noConfusion h2

theorem setEntry_setEntry {V : Type} (m : List (String × V)) (k : String)
    (v1 v2 : V) : setEntry (setEntry m k v1) k v2 = setEntry m k v2 := by
  induction m with
  | nil => simp [setEntry]
  | cons kv rest ih =>
      obtain ⟨k', v'⟩ := kv
      by_cases h : k = k'
      · simp [setEntry, h]
      · simp [setEntry, h, ih]

theorem setEntry_length_eq {V : Type} (m : List (String × V)) (k : String)
    (v1 v2 : V) : (setEntry m k v1).length = (setEntry m k v2).length := by
  induction m with
  | nil => rfl
  | cons kv rest ih =>
      obtain ⟨k', v'⟩ := kv
      by_cases h : k = k'
      · simp [setEntry, h]
      · simp [setEntry, h, ih]

theorem lookupEntry_setEntry {V : Type} (m : List (String × V)) (k : String)
    (v : V) : lookupEntry (setEntry m k v) k = some v := by
  induction m with
  | nil => simp [setEntry, lookupEntry]
  | cons kv rest ih =>
      obtain ⟨k', v'⟩ := kv
      by_cases h : k = k'
      · simp [setEntry, h, lookupEntry]
      · simp [setEntry, h, lookupEntry, ih]

theorem mapInsert_mapInsert {V : Type} (m : List (String × V)) (k : String)
    (v1 v2 : V) : mapInsert (mapInsert m k v1) k v2 = mapInsert m k v2 := by
  induction m with
  | nil => simp [mapInsert, strLt_irrefl]
  | cons kv rest ih =>
      obtain ⟨k', v'⟩ := kv
      rcases strLt_trichotomy k k' with ⟨h, h2, hne2⟩ | ⟨h, h2, heq⟩ |
        ⟨h, h2, hne2⟩
      · simp [mapInsert, h, strLt_irrefl]
      · subst heq
        simp [mapInsert, strLt_irrefl]
      · simp [mapInsert, h, hne2, ih]

theorem mapInsert_length_eq {V : Type} (m : List (String × V)) (k : String)
    (v1 v2 : V) : (mapInsert m k v1).length = (mapInsert m k v2).length := by
  induction m with
  | nil => rfl
  | cons kv rest ih =>
      obtain ⟨k', v'⟩ := kv
      rcases strLt_trichotomy k k' with ⟨h, h2, hne2⟩ | ⟨h, h2, heq⟩ |
        ⟨h, h2, hne2⟩
      · simp [mapInsert, h]
      · subst heq
        simp [mapInsert, strLt_irrefl]
      · simp [mapInsert, h, hne2, ih]

theorem lookupEntry_mapInsert {V : Type} (m : List (String × V)) (k : String)
    (v : V) : lookupEntry (mapInsert m k v) k = some v := by
  induction m with
  | nil => simp [mapInsert, lookupEntry]
  | cons kv rest ih =>
      obtain ⟨k', v'⟩ := kv
      rcases strLt_trichotomy k k' with ⟨h, h2, hne2⟩ | ⟨h, h2, heq⟩ |
        ⟨h, h2, hne2⟩
      · simp [mapInsert, h, lookupEntry]
      · subst heq
        simp [mapInsert, strLt_irrefl, lookupEntry]
      · simp [mapInsert, h, hne2, lookupEntry, ih]

theorem mapInsert_comm {V : Type} (m : List (String × V)) (k1 k2 : String)
    (v1 v2 : V) (hne : k1 ≠ k2) :
    mapInsert (mapInsert m k1 v1) k2 v2
      = mapInsert (mapInsert m k2 v2) k1 v1 := by
  induction m with
  | nil =>
      rcases strLt_trichotomy k1 k2 with ⟨h, h2, _⟩ | ⟨h, h2, heq⟩ |
        ⟨h, h2, _⟩
      · simp [mapInsert, h, h2, Ne.symm hne]
      · exact absurd heq hne
      · simp [mapInsert, h, h2, hne]
  | cons kv rest ih =>
      obtain ⟨k', v'⟩ := kv
      rcases strLt_trichotomy k1 k' with ⟨ha, ha2, hnea⟩ | ⟨ha, ha2, heqa⟩ |
        ⟨ha, ha2, hnea⟩ <;>
        rcases strLt_trichotomy k2 k' with ⟨hb, hb2, hneb⟩ | ⟨hb, hb2, heqb⟩ |
          ⟨hb, hb2, hneb⟩
      · rcases strLt_trichotomy k1 k2 with ⟨hc, hc2, _⟩ | ⟨hc, hc2, heqc⟩ |
          ⟨hc, hc2, _⟩
        · simp [mapInsert, ha, hb, hc, hc2, Ne.symm hne]
        · exact absurd heqc hne
        · simp [mapInsert, ha, hb, hc, hc2, hne]
      · subst heqb
        simp [mapInsert, ha, ha2, Ne.symm hnea, strLt_irrefl]
      · have hc : strLt k1 k2 = true := strLt_trans ha hb2
        simp [mapInsert, ha, hb, hneb, hc, strLt_asymm hc, Ne.symm hne]
      · subst heqa
        simp [mapInsert, hb, hb2, hne, strLt_irrefl]
      · exact absurd (heqa.trans heqb.symm) hne
      · subst heqa
        simp [mapInsert, hb, hneb, strLt_irrefl]
      · have hc : strLt k2 k1 = true := strLt_trans hb ha2
        simp [mapInsert, ha, hnea, hb, hc, strLt_asymm hc, hne]
      · subst heqb
        simp [mapInsert, ha, hnea, strLt_irrefl]
      · simp [mapInsert, ha, hnea, hb, hneb, ih]

/-- C2: populating the key-ordered map with a fixed set of pairs with
distinct keys in any two insertion orders and then computing the
map-level hash yields the identical fingerprint. -/
theorem orderedMap_hash_insertion_order_independent
    (l1 l2 : List (String × AttributeValue)) (hp : l1.Perm l2)
    (hnd : (l1.map Prod.fst).Nodup) :
    GetHashForAttributeMap (OrderedAttributeMap.fromSource l1)
      = GetHashForAttributeMap (OrderedAttributeMap.fromSource l2) := by
  have h : OrderedAttributeMap.fromSource l1
      = OrderedAttributeMap.fromSource l2 := by
    unfold OrderedAttributeMap.fromSource OrderedAttributeMap.SetAttribute
    refine hp.foldl_eq' ?_ []
    intro x hx y hy z
    by_cases hxy : x = y
    · subst hxy; rfl
    · have hk : x.1 ≠ y.1 := fun he =>
        hxy (List.inj_on_of_nodup_map hnd hx hy he)
      exact mapInsert_comm z x.1 y.1 (AttributeConverter x.2)
        (AttributeConverter y.2) hk
  rw [h]

/-- Witness for C2: the pair set `{("a", 1), ("b", 2)}` inserted in its
two orders hashes identically through the ordered map. -/
theorem orderedMap_hash_insertion_order_independent_witness :
    ([("b", AttributeValue.intV 2), ("a", AttributeValue.intV 1)].Perm
        [("a", AttributeValue.intV 1), ("b", AttributeValue.intV 2)])
    ∧ ([("b", AttributeValue.intV 2),
          ("a", AttributeValue.intV 1)].map Prod.fst).Nodup
    ∧ GetHashForAttributeMap (OrderedAttributeMap.fromSource
          [("b", AttributeValue.intV 2), ("a", AttributeValue.intV 1)])
        = GetHashForAttributeMap (OrderedAttributeMap.fromSource
          [("a", AttributeValue.intV 1), ("b", AttributeValue.intV 2)]) :=
  ⟨List.Perm.swap _ _ [], by decide,
    orderedMap_hash_insertion_order_independent _ _
      (List.Perm.swap _ _ []) (by decide)⟩

/-- C7: on each map variant, a second `SetAttribute` under the same key
leaves the entry count as it was after the first call and stores the
converted form of the second value; the overwrite is silent and
unconditional. -/
theorem setAttribute_overwrite (mS : List (String × String))
    (mA mO : List (String × OwnedAttributeValue)) (k : String)
    (v1 v2 : AttributeValue) :
    ((StringAttributeMap.SetAttribute
          (StringAttributeMap.SetAttribute mS k v1) k v2).length
        = (StringAttributeMap.SetAttribute mS k v1).length
      ∧ lookupEntry (StringAttributeMap.SetAttribute
          (StringAttributeMap.SetAttribute mS k v1) k v2) k
        = some (StringAttributeConverter v2))
    ∧ ((AttributeMap.SetAttribute
          (AttributeMap.SetAttribute mA k v1) k v2).length
        = (AttributeMap.SetAttribute mA k v1).length
      ∧ lookupEntry (AttributeMap.SetAttribute
          (AttributeMap.SetAttribute mA k v1) k v2) k
        = some (AttributeConverter v2))
    ∧ ((OrderedAttributeMap.SetAttribute
          (OrderedAttributeMap.SetAttribute mO k v1) k v2).length
        = (OrderedAttributeMap.SetAttribute mO k v1).length
      ∧ lookupEntry (OrderedAttributeMap.SetAttribute
          (OrderedAttributeMap.SetAttribute mO k v1) k v2) k
        = some (AttributeConverter v2)) := by
  unfold StringAttributeMap.SetAttribute AttributeMap.SetAttribute
    OrderedAttributeMap.SetAttribute
  refine ⟨⟨?_, ?_⟩, ⟨?_, ?_⟩, ⟨?_, ?_⟩⟩
  · rw [setEntry_setEntry]; exact setEntry_length_eq mS k _ _
  · rw [setEntry_setEntry]; exact lookupEntry_setEntry mS k _
  · rw [setEntry_setEntry]; exact setEntry_length_eq mA k _ _
  · rw [setEntry_setEntry]; exact lookupEntry_setEntry mA k _
  · rw [mapInsert_mapInsert]; exact mapInsert_length_eq mO k _ _
  · rw [mapInsert_mapInsert]; exact lookupEntry_mapInsert mO k _

/-- C8: the two map variants whose constructors accept a nullable
enumerable source yield entry count zero for a null source.  The
key-ordered variant declares no constructor from a nullable source, so
no corresponding statement exists for it. -/
theorem fromNullSource_yields_empty :
    (StringAttributeMap.fromOptionalSource none).length = 0
      ∧ (AttributeMap.fromOptionalSource none).length = 0 :=
  ⟨rfl, rfl⟩

end OtelSdk
